import Mathlib

set_option maxRecDepth 100000

/-!
Verification of the aqua-scan-gate image-reference resolution and
request-signing core.

Strings are modelled as lists of characters. Each definition below is a
shallow embedding of a Go function from the repository:

* pkg/aqua/client_test.go: ConvertImageRef (the full reference-parsing
  implementation, lines 440-499), GetRegistryName (lines 20-33) and
  normalizeHostname (lines 45-49 and 501-505).
* pkg/aqua/auth.go: SignRequest, computeHMAC256 and ValidateHMACSignature,
  together with the crypto/sha256, crypto/hmac and encoding/hex primitives
  they call (modelled from FIPS 180-4 / RFC 2104, which those Go standard
  library packages implement).
-/

/-! ## String primitives (models of the Go strings package operations used) -/

/-- Model of strings.Contains for a single-character substring. -/
def hasChar : List Char → Char → Bool
  | [], _ => false
  | a :: t, c => a = c || hasChar t c

/-- Model of strings.Index for a single-character substring: index of the
first occurrence, or -1 when absent. -/
def firstIndex : List Char → Char → Int
  | [], _ => -1
  | a :: t, c =>
    if a = c then 0
    else
      let r := firstIndex t c
      if 0 ≤ r then r + 1 else -1

/-- Model of strings.LastIndex for a single-character substring: index of the
last occurrence, or -1 when absent. -/
def lastIndex : List Char → Char → Int
  | [], _ => -1
  | a :: t, c =>
    let r := lastIndex t c
    if 0 ≤ r then r + 1 else if a = c then 0 else -1

/-- Model of strings.HasPrefix: does s start with pre? -/
def hasLead : List Char → List Char → Bool
  | [], _ => true
  | _ :: _, [] => false
  | p :: pt, a :: t => p = a && hasLead pt t

/-- Model of strings.TrimPrefix pre from s. -/
def dropIfLeading (pre s : List Char) : List Char :=
  if hasLead pre s then s.drop pre.length else s

/-- Auxiliary predicate for the amended repository invariant: does the list
contain two adjacent slashes? -/
def hasDoubleSlash : List Char → Bool
  | [] => false
  | [_] => false
  | a :: b :: t => (a = '/' && b = '/') || hasDoubleSlash (b :: t)

/-! ## The reference parser (ConvertImageRef, client_test.go lines 440-499) -/

def latestTag : List Char := ['l', 'a', 't', 'e', 's', 't']

def dockerHubHost : List Char := ['d', 'o', 'c', 'k', 'e', 'r', '.', 'i', 'o']

/-- Digest strip: Go lines 443-446. When the reference contains an at-sign,
strings.Split on it and keep parts[0], the text before the first at-sign. -/
def stripDigest (imageRef : List Char) : List Char :=
  if hasChar imageRef '@' then imageRef.takeWhile (fun c => c ≠ '@') else imageRef

/-- Tag handling: Go lines 448-470. Returns the remaining reference, the tag,
and the hasPort flag. The last colon is inspected: a slash before it makes it
a tag separator; a dot (and no slash) before it makes it a port separator;
otherwise it is a tag separator. With no colon past index 0, tag is latest. -/
def tagSplit (imageRef : List Char) : List Char × List Char × Bool :=
  let tagIdx := lastIndex imageRef ':'
  if 0 < tagIdx then
    let beforeColon := imageRef.take tagIdx.toNat
    if hasChar beforeColon '/' then
      (imageRef.take tagIdx.toNat, imageRef.drop (tagIdx.toNat + 1), false)
    else if hasChar beforeColon '.' then
      (imageRef, latestTag, true)
    else
      (imageRef.take tagIdx.toNat, imageRef.drop (tagIdx.toNat + 1), false)
  else
    (imageRef, latestTag, false)

/-- Registry/repository split: Go lines 472-490. The candidate before the
first slash is the registry host when it contains a dot, or when hasPort is
set and it contains a colon; otherwise the host defaults to docker.io and the
repository is the whole remaining reference. -/
def hostSplit (imageRef : List Char) (hasPort : Bool) : List Char × List Char :=
  let slashIdx := firstIndex imageRef '/'
  if 0 < slashIdx then
    let registryPart := imageRef.take slashIdx.toNat
    if hasChar registryPart '.' || (hasPort && hasChar registryPart ':') then
      (registryPart, imageRef.drop (slashIdx.toNat + 1))
    else
      (dockerHubHost, imageRef)
  else
    (dockerHubHost, imageRef)

/-- The structured result of the pure parsing part of ConvertImageRef. -/
structure ParsedRef where
  host : List Char
  repository : List Char
  tag : List Char
  deriving DecidableEq, Repr

/-- The pure parsing pipeline of ConvertImageRef: digest strip, then tag/port
disambiguation, then host/repository split. -/
def parseImageRef (imageRef : List Char) : ParsedRef :=
  let w := stripDigest imageRef
  let r := tagSplit w
  let p := hostSplit r.1 r.2.2
  ⟨p.1, p.2, r.2.1⟩

/-! ## The registry name cache lookup (client_test.go lines 20-33, 45-49) -/

def httpScheme : List Char := ['h', 't', 't', 'p', ':', '/', '/']

def httpsScheme : List Char := ['h', 't', 't', 'p', 's', ':', '/', '/']

/-- normalizeHostname: strings.TrimPrefix of the https scheme, then of the
http scheme. No case folding is performed. -/
def normalizeHostname (hostname : List Char) : List Char :=
  dropIfLeading httpScheme (dropIfLeading httpsScheme hostname)

/-- The registry cache: a Go map from hostname to the Aqua registry name,
modelled as an association list (Go map keys are unique; lookup takes the
first match). -/
abbrev RegistryCache : Type := List (List Char × List Char)

/-- Lookup in the Go map registryCache. -/
def lookupKey : List (List Char × List Char) → List Char → Option (List Char)
  | [], _ => none
  | p :: t, key => if p.1 = key then some p.2 else lookupKey t key

/-- GetRegistryName: normalize the hostname, then look it up in the cache;
a missing entry yields the registry-not-found error, modelled as none. -/
def GetRegistryName (cache : RegistryCache) (hostname : List Char) : Option (List Char) :=
  lookupKey cache (normalizeHostname hostname)

/-- ConvertImageRef: parse the reference, then resolve the registry host to
the Aqua registry name through GetRegistryName; a lookup failure propagates
as an error (none). -/
def ConvertImageRef (cache : RegistryCache) (imageRef : List Char) :
    Option (List Char × List Char × List Char) :=
  let p := parseImageRef imageRef
  match GetRegistryName cache p.host with
  | some registryName => some (registryName, p.repository, p.tag)
  | none => none

/-! ## SHA-256 (model of crypto/sha256, FIPS 180-4) over byte lists -/

/-- Truncation to a 32-bit word. -/
def w32 (n : Nat) : Nat := n % 4294967296

/-- Logical right shift within 32 bits. -/
def shr32 (x n : Nat) : Nat := x / 2 ^ n

/-- Right rotation of a 32-bit word. -/
def rotr32 (x n : Nat) : Nat := w32 (x / 2 ^ n + x % 2 ^ n * 2 ^ (32 - n))

def bSig0 (x : Nat) : Nat := rotr32 x 2 ^^^ rotr32 x 13 ^^^ rotr32 x 22

def bSig1 (x : Nat) : Nat := rotr32 x 6 ^^^ rotr32 x 11 ^^^ rotr32 x 25

def sSig0 (x : Nat) : Nat := rotr32 x 7 ^^^ rotr32 x 18 ^^^ shr32 x 3

def sSig1 (x : Nat) : Nat := rotr32 x 17 ^^^ rotr32 x 19 ^^^ shr32 x 10

def chF (x y z : Nat) : Nat := (x &&& y) ^^^ ((x ^^^ 4294967295) &&& z)

def majF (x y z : Nat) : Nat := (x &&& y) ^^^ (x &&& z) ^^^ (y &&& z)

/-- The 64 SHA-256 round constants, written in decimal. -/
def K64 : List Nat :=
  [1116352408, 1899447441, 3049323471, 3921009573,
   961987163, 1508970993, 2453635748, 2870763221,
   3624381080, 310598401, 607225278, 1426881987,
   1925078388, 2162078206, 2614888103, 3248222580,
   3835390401, 4022224774, 264347078, 604807628,
   770255983, 1249150122, 1555081692, 1996064986,
   2554220882, 2821834349, 2952996808, 3210313671,
   3336571891, 3584528711, 113926993, 338241895,
   666307205, 773529912, 1294757372, 1396182291,
   1695183700, 1986661051, 2177026350, 2456956037,
   2730485921, 2820302411, 3259730800, 3345764771,
   3516065817, 3600352804, 4094571909, 275423344,
   430227734, 506948616, 659060556, 883997877,
   958139571, 1322822218, 1537002063, 1747873779,
   1955562222, 2024104815, 2227730452, 2361852424,
   2428436474, 2756734187, 3204031479, 3329325298]

/-- Working state of the compression function: eight 32-bit words. -/
structure Sha256State where
  a : Nat
  b : Nat
  c : Nat
  d : Nat
  e : Nat
  f : Nat
  g : Nat
  hh : Nat
  deriving DecidableEq, Repr

/-- Initial hash value of SHA-256, written in decimal. -/
def sha256H0 : Sha256State :=
  ⟨1779033703, 3144134277, 1013904242, 2773480762,
   1359893119, 2600822924, 528734635, 1541459225⟩

/-- One round of the compression function, consuming one constant-word pair. -/
def sha256Round (s : Sha256State) (kw : Nat × Nat) : Sha256State :=
  let t1 := w32 (s.hh + bSig1 s.e + chF s.e s.f s.g + kw.1 + kw.2)
  let t2 := w32 (bSig0 s.a + majF s.a s.b s.c)
  ⟨w32 (t1 + t2), s.a, s.b, s.c, w32 (s.d + t1), s.e, s.f, s.g⟩

/-- Big-endian decoding of bytes into 32-bit words. -/
def toWords : List Nat → List Nat
  | a :: b :: c :: d :: rest => (a * 16777216 + b * 65536 + c * 256 + d) :: toWords rest
  | _ => []

/-- Extend the 16-word message block by n further schedule words. -/
def extendW (ws : List Nat) : Nat → List Nat
  | 0 => ws
  | n + 1 =>
    let t := ws.length
    let next := w32 (sSig1 (ws.getD (t - 2) 0) + ws.getD (t - 7) 0 +
      sSig0 (ws.getD (t - 15) 0) + ws.getD (t - 16) 0)
    extendW (ws ++ [next]) n

/-- Process one 64-byte block. -/
def sha256Block (s : Sha256State) (block : List Nat) : Sha256State :=
  let ws := extendW (toWords block) 48
  let t := (K64.zip ws).foldl sha256Round s
  ⟨w32 (s.a + t.a), w32 (s.b + t.b), w32 (s.c + t.c), w32 (s.d + t.d),
   w32 (s.e + t.e), w32 (s.f + t.f), w32 (s.g + t.g), w32 (s.hh + t.hh)⟩

/-- Split a byte list into 64-byte chunks. -/
def chunks64 (l : List Nat) : List (List Nat) :=
  if h : l = [] then [] else l.take 64 :: chunks64 (l.drop 64)
termination_by l.length
decreasing_by
  simp [List.length_drop]
  have hp : 0 < l.length := List.length_pos.mpr h
  omega

/-- Big-endian bytes of a 64-bit length value. -/
def be8 (n : Nat) : List Nat :=
  [n / 2 ^ 56 % 256, n / 2 ^ 48 % 256, n / 2 ^ 40 % 256, n / 2 ^ 32 % 256,
   n / 2 ^ 24 % 256, n / 2 ^ 16 % 256, n / 2 ^ 8 % 256, n % 256]

/-- Big-endian bytes of a 32-bit word. -/
def be4 (n : Nat) : List Nat :=
  [n / 2 ^ 24 % 256, n / 2 ^ 16 % 256, n / 2 ^ 8 % 256, n % 256]

/-- Merkle-Damgard padding: a 0x80 byte, zeros to 56 mod 64, and the
bit length as an 8-byte big-endian value. -/
def sha256Pad (msg : List Nat) : List Nat :=
  msg ++ 128 :: List.replicate ((119 - msg.length % 64) % 64) 0 ++ be8 (8 * msg.length)

/-- SHA-256 of a byte list, as the 32-byte digest. -/
def sha256 (msg : List Nat) : List Nat :=
  let s := (chunks64 (sha256Pad msg)).foldl sha256Block sha256H0
  be4 s.a ++ be4 s.b ++ be4 s.c ++ be4 s.d ++ be4 s.e ++ be4 s.f ++ be4 s.g ++ be4 s.hh

/-! ## HMAC (model of crypto/hmac, RFC 2104) and hex encoding -/

/-- HMAC-SHA256 with block size 64: keys longer than a block are hashed,
the key is zero-padded to the block size, and the digest is
H((key xor opad) ++ H((key xor ipad) ++ msg)). -/
def hmacSha256 (key msg : List Nat) : List Nat :=
  let k0 := if 64 < key.length then sha256 key else key
  let k1 := k0 ++ List.replicate (64 - k0.length) 0
  let inner := sha256 ((k1.map (fun b => b ^^^ 54)) ++ msg)
  sha256 ((k1.map (fun b => b ^^^ 92)) ++ inner)

/-- Lowercase hexadecimal digit for a value below 16. -/
def hexDigit (n : Nat) : Char :=
  if n < 10 then Char.ofNat (48 + n) else Char.ofNat (87 + n)

/-- Model of hex.EncodeToString: two lowercase hex digits per byte. -/
def hexEncode : List Nat → List Char
  | [] => []
  | b :: t => hexDigit (b / 16) :: hexDigit (b % 16) :: hexEncode t

/-- Model of Go string-to-bytes conversion: UTF-8 encoding of one character. -/
def utf8EncodeChar (c : Char) : List Nat :=
  if c.toNat < 128 then [c.toNat]
  else if c.toNat < 2048 then [192 + c.toNat / 64, 128 + c.toNat % 64]
  else if c.toNat < 65536 then
    [224 + c.toNat / 4096, 128 + c.toNat / 64 % 64, 128 + c.toNat % 64]
  else
    [240 + c.toNat / 262144, 128 + c.toNat / 4096 % 64, 128 + c.toNat / 64 % 64,
     128 + c.toNat % 64]

/-- Model of Go string-to-bytes conversion of a whole string. -/
def utf8Encode : List Char → List Nat
  | [] => []
  | c :: t => utf8EncodeChar c ++ utf8Encode t

/-- computeHMAC256 (auth.go lines 66-70): hex-encoded HMAC-SHA256 of the
message bytes under the secret bytes. -/
def computeHMAC256 (message secret : List Char) : List Char :=
  hexEncode (hmacSha256 (utf8Encode secret) (utf8Encode message))

/-- Model of hmac.Equal, which is true exactly when the two byte slices are
equal (subtle.ConstantTimeCompare; constant-timeness is not modelled). -/
def hmacEqual (a b : List Nat) : Bool := a = b

/-- ValidateHMACSignature (auth.go lines 74-77): recompute the expected
signature and compare the byte slices of the two signature strings. -/
def ValidateHMACSignature (message signature secret : List Char) : Bool :=
  hmacEqual (utf8Encode signature) (utf8Encode (computeHMAC256 message secret))

/-! ## Request signing (SignRequest, auth.go lines 40-63)

An http.Request is modelled by its method, the string form of its URL, and
its header map. Header keys used here (X-Aqua-Timestamp, X-Aqua-Signature)
are already in canonical MIME form, so Go Header.Set key canonicalization is
the identity on them and is not modelled. The timestamp produced by
time.Now().UTC().Format(time.RFC3339) on line 45 is nondeterministic input
and enters the model as the ts parameter, computed once per call. -/

structure HttpRequest where
  method : List Char
  url : List Char
  header : List (List Char × List Char)
  deriving DecidableEq, Repr

/-- Model of http.Header.Set: replace any existing entries for the key. -/
def headerSet (hs : List (List Char × List Char)) (k v : List Char) :
    List (List Char × List Char) :=
  (k, v) :: hs.filter (fun p => p.1 ≠ k)

/-- Model of http.Header.Get for the keys used here. -/
def headerGet (hs : List (List Char × List Char)) (k : List Char) : Option (List Char) :=
  match hs with
  | [] => none
  | p :: t => if p.1 = k then some p.2 else headerGet t k

def xAquaTimestamp : List Char :=
  ['X', '-', 'A', 'q', 'u', 'a', '-', 'T', 'i', 'm', 'e', 's', 't', 'a', 'm', 'p']

def xAquaSignature : List Char :=
  ['X', '-', 'A', 'q', 'u', 'a', '-', 'S', 'i', 'g', 'n', 'a', 't', 'u', 'r', 'e']

/-- SignRequest: with an empty secret the request is returned untouched and
the error is nil; otherwise the string to sign is built by
fmt.Sprintf of method, URL, timestamp and body joined by newlines, the
HMAC-SHA256 signature is computed, and the two headers are set (timestamp
first, then signature). The second component is the returned error, which is
nil on both paths. -/
def SignRequest (secret ts : List Char) (req : HttpRequest) (body : List Char) :
    HttpRequest × Option (List Char) :=
  if secret = [] then (req, none)
  else
    let stringToSign := req.method ++ '\n' :: (req.url ++ '\n' :: (ts ++ '\n' :: body))
    let signature := computeHMAC256 stringToSign secret
    let header1 := headerSet req.header xAquaTimestamp ts
    let header2 := headerSet header1 xAquaSignature signature
    ({ req with header := header2 }, none)

/-! ## Helper lemmas about the string primitives -/

lemma hasChar_take_false (s : List Char) (c : Char) (n : Nat)
    (h : hasChar s c = false) : hasChar (s.take n) c = false := by
  induction s generalizing n with
  | nil => simp [hasChar]
  | cons a t ih =>
    cases n with
    | zero => simp [hasChar]
    | succ m =>
      simp only [List.take, hasChar, Bool.or_eq_false_iff] at h ⊢
      exact ⟨h.1, ih m h.2⟩

lemma lastIndex_of_hasChar_false (s : List Char) (c : Char)
    (h : hasChar s c = false) : lastIndex s c = -1 := by
  induction s with
  | nil => rfl
  | cons a t ih =>
    simp only [hasChar, Bool.or_eq_false_iff, decide_eq_false_iff_not] at h
    simp [lastIndex, ih h.2, h.1]

lemma firstIndex_of_hasChar_false (s : List Char) (c : Char)
    (h : hasChar s c = false) : firstIndex s c = -1 := by
  induction s with
  | nil => rfl
  | cons a t ih =>
    simp only [hasChar, Bool.or_eq_false_iff, decide_eq_false_iff_not] at h
    simp [firstIndex, ih h.2, h.1]

lemma firstIndex_drop (w : List Char) (c : Char) (h : 0 ≤ firstIndex w c) :
    ∃ t, w.drop (firstIndex w c).toNat = c :: t := by
  induction w with
  | nil => simp [firstIndex] at h
  | cons a t ih =>
    by_cases ha : a = c
    · subst ha
      exact ⟨t, by simp [firstIndex]⟩
    · simp only [firstIndex, if_neg ha] at h ⊢
      by_cases hr : 0 ≤ firstIndex t c
      · obtain ⟨u, hu⟩ := ih hr
        refine ⟨u, ?_⟩
        rw [if_pos hr]
        have htn : (firstIndex t c + 1).toNat = (firstIndex t c).toNat + 1 := by omega
        rw [htn]
        simpa using hu
      · rw [if_neg hr] at h
        omega

lemma hasDoubleSlash_tail (a : Char) (t : List Char)
    (h : hasDoubleSlash (a :: t) = false) : hasDoubleSlash t = false := by
  cases t with
  | nil => rfl
  | cons b u =>
    simp only [hasDoubleSlash, Bool.or_eq_false_iff] at h
    exact h.2

lemma hasDoubleSlash_drop (w : List Char) (n : Nat)
    (h : hasDoubleSlash w = false) : hasDoubleSlash (w.drop n) = false := by
  induction w generalizing n with
  | nil => simp [List.drop, hasDoubleSlash]
  | cons a t ih =>
    cases n with
    | zero => exact h
    | succ m => exact ih m (hasDoubleSlash_tail a t h)

lemma head_ne_slash_of_noDoubleSlash (rest : List Char)
    (h : hasDoubleSlash ('/' :: rest) = false) : rest.head? ≠ some '/' := by
  cases rest with
  | nil => simp
  | cons b u =>
    by_cases hbs : b = '/'
    · subst hbs
      simp [hasDoubleSlash] at h
    · simp [List.head?, hbs]

lemma getLast?_drop_of_ne_nil (w : List Char) (n : Nat) (h : w.drop n ≠ []) :
    (w.drop n).getLast? = w.getLast? := by
  induction w generalizing n with
  | nil => simp at h
  | cons a t ih =>
    cases n with
    | zero => rfl
    | succ m =>
      simp only [List.drop] at h ⊢
      have ht : t ≠ [] := by
        intro he
        exact h (by simp [he])
      cases t with
      | nil => exact absurd rfl ht
      | cons b u => rw [ih m h, List.getLast?_cons_cons]

/-! ## Helper lemmas about headers and lookup -/

lemma headerGet_headerSet_same (l : List (List Char × List Char)) (k v : List Char) :
    headerGet (headerSet l k v) k = some v := by
  simp [headerGet, headerSet]

lemma headerGet_filter_ne (l : List (List Char × List Char)) (k1 k2 : List Char)
    (h : k1 ≠ k2) : headerGet (l.filter (fun p => p.1 ≠ k1)) k2 = headerGet l k2 := by
  induction l with
  | nil => rfl
  | cons a t ih =>
    rw [List.filter_cons]
    by_cases ha : a.1 = k1
    · rw [if_neg (by simp [ha])]
      have hk : a.1 ≠ k2 := by rw [ha]; exact h
      rw [ih]
      simp [headerGet, hk]
    · rw [if_pos (by simp [ha])]
      by_cases hb : a.1 = k2
      · simp [headerGet, hb]
      · simp only [ne_eq, decide_not] at ih
        simp [headerGet, hb, ih]

lemma headerGet_headerSet_ne (l : List (List Char × List Char)) (k1 k2 v : List Char)
    (h : k1 ≠ k2) : headerGet (headerSet l k1 v) k2 = headerGet l k2 := by
  simp only [headerSet, headerGet, if_neg h]
  exact headerGet_filter_ne l k1 k2 h

lemma lookupKey_eq_none_iff (l : List (List Char × List Char)) (k : List Char) :
    lookupKey l k = none ↔ k ∉ l.map Prod.fst := by
  induction l with
  | nil => simp [lookupKey]
  | cons a t ih =>
    by_cases ha : a.1 = k
    · simp [lookupKey, ha]
    · simp only [lookupKey, if_neg ha, List.map_cons, List.mem_cons, ih]
      constructor
      · rintro hn (he | hm)
        · exact ha he.symm
        · exact hn hm
      · intro hn hm
        exact hn (Or.inr hm)

lemma lookupKey_some_mem (l : List (List Char × List Char)) (k v : List Char)
    (h : lookupKey l k = some v) : (k, v) ∈ l := by
  induction l with
  | nil => simp [lookupKey] at h
  | cons a t ih =>
    by_cases ha : a.1 = k
    · simp only [lookupKey, if_pos ha] at h
      have hv : a.2 = v := Option.some.inj h
      have he : (k, v) = a := by rw [← ha, ← hv]
      rw [he]
      exact List.mem_cons_self a t
    · simp only [lookupKey, if_neg ha] at h
      exact List.mem_cons_of_mem a (ih h)

lemma hasLead_append_self (p s : List Char) : hasLead p (p ++ s) = true := by
  induction p with
  | nil => rfl
  | cons a t ih => simp [hasLead, ih]

lemma hasLead_https_of_http_append (s : List Char) :
    hasLead httpsScheme (httpScheme ++ s) = false := by
  simp [hasLead, httpsScheme, httpScheme]

/-! ## Length lemmas for the signature path -/

lemma hexEncode_length (l : List Nat) : (hexEncode l).length = 2 * l.length := by
  induction l with
  | nil => rfl
  | cons b t ih => simp [hexEncode, ih]; omega

lemma sha256_length (m : List Nat) : (sha256 m).length = 32 := by
  simp [sha256, be4]

lemma hmacSha256_length (k m : List Nat) : (hmacSha256 k m).length = 32 := by
  simp [hmacSha256, sha256_length]

lemma computeHMAC256_length (m s : List Char) : (computeHMAC256 m s).length = 64 := by
  simp [computeHMAC256, hexEncode_length, hmacSha256_length]

lemma utf8EncodeChar_ne_nil (c : Char) : utf8EncodeChar c ≠ [] := by
  unfold utf8EncodeChar
  split_ifs <;> simp

lemma utf8Encode_ne_nil (s : List Char) (h : s ≠ []) : utf8Encode s ≠ [] := by
  cases s with
  | nil => exact absurd rfl h
  | cons c t =>
    simp only [utf8Encode, ne_eq, List.append_eq_nil]
    intro hb
    exact utf8EncodeChar_ne_nil c hb.1

/-! ## Component-level lemmas for the parser -/

lemma tagSplit_latest_of_no_colon (w : List Char) (h : hasChar w ':' = false) :
    (tagSplit w).1 = w ∧ (tagSplit w).2.1 = latestTag := by
  have hl : lastIndex w ':' = -1 := lastIndex_of_hasChar_false w ':' h
  simp [tagSplit, hl]

lemma tagSplit_latest_of_port (w : List Char)
    (hpos : 0 < lastIndex w ':')
    (hns : hasChar (w.take (lastIndex w ':').toNat) '/' = false)
    (hdot : hasChar (w.take (lastIndex w ':').toNat) '.' = true) :
    tagSplit w = (w, latestTag, true) := by
  simp [tagSplit, hpos, hns, hdot]

lemma hostSplit_no_edge_slash (w : List Char) (hp : Bool)
    (h1 : w.head? ≠ some '/') (h2 : w.getLast? ≠ some '/')
    (h3 : hasDoubleSlash w = false) :
    (hostSplit w hp).2.head? ≠ some '/' ∧ (hostSplit w hp).2.getLast? ≠ some '/' := by
  by_cases hsi : 0 < firstIndex w '/'
  · by_cases hc : (hasChar (w.take (firstIndex w '/').toNat) '.' ||
        (hp && hasChar (w.take (firstIndex w '/').toNat) ':')) = true
    · have hrepo : (hostSplit w hp).2 = w.drop ((firstIndex w '/').toNat + 1) := by
        simp [hostSplit, hsi, hc]
      rw [hrepo]
      obtain ⟨rest, hrest⟩ := firstIndex_drop w '/' (le_of_lt hsi)
      have hdropsucc : w.drop ((firstIndex w '/').toNat + 1) = rest := by
        have hdd : w.drop ((firstIndex w '/').toNat + 1) =
            (w.drop (firstIndex w '/').toNat).drop 1 := by
          rw [List.drop_drop]
        rw [hdd, hrest]
        rfl
      constructor
      · rw [hdropsucc]
        have hd : hasDoubleSlash ('/' :: rest) = false := by
          rw [← hrest]
          exact hasDoubleSlash_drop w _ h3
        exact head_ne_slash_of_noDoubleSlash rest hd
      · cases hre : rest with
        | nil => simp [hdropsucc, hre]
        | cons b u =>
          have hnn : w.drop ((firstIndex w '/').toNat + 1) ≠ [] := by
            rw [hdropsucc, hre]
            simp
          rw [getLast?_drop_of_ne_nil w _ hnn]
          exact h2
    · have hrepo : (hostSplit w hp).2 = w := by
        simp [hostSplit, hsi, hc]
      rw [hrepo]
      exact ⟨h1, h2⟩
  · have hrepo : (hostSplit w hp).2 = w := by
      simp [hostSplit, hsi]
    rw [hrepo]
    exact ⟨h1, h2⟩


/-! ## Claim theorems -/

/-- Claim C1: for the reference registry.io:5000/a/b:tag the parser returns
registry host registry.io:5000, repository a/b and tag tag; with the test
cache, ConvertImageRef resolves the host to the cached registry name. The
last colon has a slash before it, so it is treated as a tag separator before
host detection runs. -/
theorem parse_registry_port_pathed_tag :
    parseImageRef "registry.io:5000/a/b:tag".toList =
      ⟨"registry.io:5000".toList, "a/b".toList, "tag".toList⟩ ∧
    ConvertImageRef [("registry.io:5000".toList, "Custom Registry".toList)]
        "registry.io:5000/a/b:tag".toList =
      some ("Custom Registry".toList, "a/b".toList, "tag".toList) := by
  decide

/-- Claim C2, counterexample: the input localhost:5000/image contains no
colon after its last slash, yet the parser resolves its tag to 5000/image,
not latest, because the text before the last colon contains no dot. -/
theorem parse_tag_latest_cex :
    hasChar (("localhost:5000/image".toList).drop
      ((lastIndex "localhost:5000/image".toList '/').toNat + 1)) ':' = false ∧
    (parseImageRef "localhost:5000/image".toList).tag = "5000/image".toList ∧
    (parseImageRef "localhost:5000/image".toList).tag ≠ latestTag := by
  decide

/-- Claim C2, amended: for every reference whose digest-stripped form either
contains no colon at all, or whose text before the last colon contains a dot
and no slash (a dotted host with a port), the tag resolves to latest. This
covers registry.io:5000/image and all slash-free, colon-free references. -/
theorem parse_tag_latest_amended (ref : List Char)
    (h : hasChar (stripDigest ref) ':' = false ∨
      (0 < lastIndex (stripDigest ref) ':' ∧
       hasChar ((stripDigest ref).take (lastIndex (stripDigest ref) ':').toNat) '/' = false ∧
       hasChar ((stripDigest ref).take (lastIndex (stripDigest ref) ':').toNat) '.' = true)) :
    (parseImageRef ref).tag = latestTag := by
  have htag : (parseImageRef ref).tag = (tagSplit (stripDigest ref)).2.1 := rfl
  rw [htag]
  rcases h with hnc | ⟨hpos, hns, hdot⟩
  · exact (tagSplit_latest_of_no_colon _ hnc).2
  · rw [tagSplit_latest_of_port _ hpos hns hdot]

/-- Claim C2, witness: the amended theorem applied to registry.io:5000/image. -/
theorem parse_tag_latest_amended_witness :
    (parseImageRef "registry.io:5000/image".toList).tag = latestTag :=
  parse_tag_latest_amended "registry.io:5000/image".toList (Or.inr (by decide))

/-- Claim C3, counterexample: a reference that itself begins with a slash
yields a repository with a leading slash, because the slash at index zero
sends the host split into the docker.io branch, which keeps the whole
reference as the repository. -/
theorem repository_edge_slash_cex :
    (parseImageRef "/image".toList).repository = "/image".toList ∧
    (parseImageRef "/image".toList).repository.head? = some '/' := by
  decide

/-- Claim C3, amended: the repository never has a leading or trailing slash
provided the working reference (after digest and tag stripping) does not
begin with a slash, does not end with a slash, and contains no two adjacent
slashes. -/
theorem repository_no_edge_slash_amended (ref : List Char)
    (h1 : (tagSplit (stripDigest ref)).1.head? ≠ some '/')
    (h2 : (tagSplit (stripDigest ref)).1.getLast? ≠ some '/')
    (h3 : hasDoubleSlash (tagSplit (stripDigest ref)).1 = false) :
    (parseImageRef ref).repository.head? ≠ some '/' ∧
    (parseImageRef ref).repository.getLast? ≠ some '/' := by
  have hrepo : (parseImageRef ref).repository =
      (hostSplit (tagSplit (stripDigest ref)).1 (tagSplit (stripDigest ref)).2.2).2 := rfl
  rw [hrepo]
  exact hostSplit_no_edge_slash _ _ h1 h2 h3

/-- Claim C3, witness: the amended theorem applied to
gcr.io/project/image:tag. -/
theorem repository_no_edge_slash_amended_witness :
    (parseImageRef "gcr.io/project/image:tag".toList).repository.head? ≠ some '/' ∧
    (parseImageRef "gcr.io/project/image:tag".toList).repository.getLast? ≠ some '/' :=
  repository_no_edge_slash_amended "gcr.io/project/image:tag".toList
    (by decide) (by decide) (by decide)

/-- Claim C4, counterexample: hostnames are not case-normalized; a case
variant of a cached hostname misses the entry that the normalized form
finds. -/
theorem registry_lookup_case_cex :
    GetRegistryName [("gcr.io".toList, "GCR".toList)] "Gcr.io".toList ≠
      GetRegistryName [("gcr.io".toList, "GCR".toList)]
        (normalizeHostname "gcr.io".toList) := by
  decide

/-- Claim C4, amended: for every cache and every hostname that does not
itself begin with the http or https scheme, looking up the hostname, its
http-prefixed form and its https-prefixed form all return the same result,
which is also the result of looking up the normalized form. Case variants
are not normalized: lookup is case-sensitive. -/
theorem registry_lookup_scheme_amended (cache : RegistryCache) (h : List Char)
    (h1 : hasLead httpScheme h = false) (h2 : hasLead httpsScheme h = false) :
    GetRegistryName cache (httpScheme ++ h) = GetRegistryName cache h ∧
    GetRegistryName cache (httpsScheme ++ h) = GetRegistryName cache h ∧
    GetRegistryName cache h = GetRegistryName cache (normalizeHostname h) := by
  have hnh : normalizeHostname h = h := by
    simp [normalizeHostname, dropIfLeading, h1, h2]
  have hhttp : normalizeHostname (httpScheme ++ h) = h := by
    simp [normalizeHostname, dropIfLeading, hasLead_https_of_http_append,
      hasLead_append_self, List.drop_left]
  have hhttps : normalizeHostname (httpsScheme ++ h) = h := by
    simp [normalizeHostname, dropIfLeading, hasLead_append_self, List.drop_left, h1]
  refine ⟨?_, ?_, ?_⟩ <;> simp [GetRegistryName, hnh, hhttp, hhttps]

/-- Claim C4, witness: the amended theorem applied to gcr.io with a
singleton cache. -/
theorem registry_lookup_scheme_amended_witness :
    GetRegistryName [("gcr.io".toList, "GCR".toList)] (httpScheme ++ "gcr.io".toList) =
      GetRegistryName [("gcr.io".toList, "GCR".toList)] "gcr.io".toList ∧
    GetRegistryName [("gcr.io".toList, "GCR".toList)] (httpsScheme ++ "gcr.io".toList) =
      GetRegistryName [("gcr.io".toList, "GCR".toList)] "gcr.io".toList ∧
    GetRegistryName [("gcr.io".toList, "GCR".toList)] "gcr.io".toList =
      GetRegistryName [("gcr.io".toList, "GCR".toList)]
        (normalizeHostname "gcr.io".toList) :=
  registry_lookup_scheme_amended [("gcr.io".toList, "GCR".toList)] "gcr.io".toList
    (by decide) (by decide)

/-- Claim C5: with a non-empty secret, SignRequest computes the hex HMAC
signature of the newline-joined method, URL, timestamp and body (in that
order, no trailing newline) and sets the timestamp header to exactly the
timestamp value used inside the signed message; the returned error is nil. -/
theorem signRequest_canonical_message (secret ts : List Char) (req : HttpRequest)
    (body : List Char) (hs : secret ≠ []) :
    headerGet (SignRequest secret ts req body).1.header xAquaSignature =
      some (computeHMAC256
        (req.method ++ '\n' :: (req.url ++ '\n' :: (ts ++ '\n' :: body))) secret) ∧
    headerGet (SignRequest secret ts req body).1.header xAquaTimestamp = some ts ∧
    (SignRequest secret ts req body).2 = none := by
  have hne : xAquaSignature ≠ xAquaTimestamp := by decide
  have hreq : (SignRequest secret ts req body).1.header =
      headerSet (headerSet req.header xAquaTimestamp ts) xAquaSignature
        (computeHMAC256
          (req.method ++ '\n' :: (req.url ++ '\n' :: (ts ++ '\n' :: body))) secret) := by
    simp [SignRequest, hs]
  have herr : (SignRequest secret ts req body).2 = none := by
    simp [SignRequest, hs]
  rw [hreq]
  refine ⟨headerGet_headerSet_same _ _ _, ?_, herr⟩
  rw [headerGet_headerSet_ne _ _ _ _ hne]
  exact headerGet_headerSet_same _ _ _

/-- Claim C5, witness: the theorem applied to a concrete request. -/
theorem signRequest_canonical_message_witness :
    headerGet (SignRequest "k".toList "2024-01-01T00:00:00Z".toList
        ⟨"POST".toList, "https://aqua.example/api".toList, []⟩ "body".toList).1.header
        xAquaSignature =
      some (computeHMAC256
        ("POST".toList ++ '\n' :: ("https://aqua.example/api".toList ++ '\n' ::
          ("2024-01-01T00:00:00Z".toList ++ '\n' :: "body".toList))) "k".toList) ∧
    headerGet (SignRequest "k".toList "2024-01-01T00:00:00Z".toList
        ⟨"POST".toList, "https://aqua.example/api".toList, []⟩ "body".toList).1.header
        xAquaTimestamp = some "2024-01-01T00:00:00Z".toList ∧
    (SignRequest "k".toList "2024-01-01T00:00:00Z".toList
        ⟨"POST".toList, "https://aqua.example/api".toList, []⟩ "body".toList).2 = none :=
  signRequest_canonical_message "k".toList "2024-01-01T00:00:00Z".toList
    ⟨"POST".toList, "https://aqua.example/api".toList, []⟩ "body".toList (by decide)

/-- Claim C6: verifying the signature produced by signing succeeds, and
verification fails whenever the supplied signature's bytes differ from the
expected signature's bytes. -/
theorem validate_roundtrip_and_reject (m s sig : List Char)
    (hdiff : utf8Encode sig ≠ utf8Encode (computeHMAC256 m s)) :
    ValidateHMACSignature m (computeHMAC256 m s) s = true ∧
    ValidateHMACSignature m sig s = false := by
  constructor
  · simp [ValidateHMACSignature, hmacEqual]
  · simp [ValidateHMACSignature, hmacEqual, hdiff]

/-- Claim C6, witness: the theorem applied to a concrete message and secret,
with the empty string as the differing signature (the expected signature has
64 characters, so its byte encoding is non-empty). -/
theorem validate_roundtrip_and_reject_witness :
    ValidateHMACSignature "a".toList (computeHMAC256 "a".toList "k".toList) "k".toList
      = true ∧
    ValidateHMACSignature "a".toList [] "k".toList = false :=
  validate_roundtrip_and_reject "a".toList "k".toList []
    (by
      intro hEq
      have h64 := computeHMAC256_length "a".toList "k".toList
      have hnn : computeHMAC256 "a".toList "k".toList ≠ [] := by
        intro hnil
        rw [hnil] at h64
        simp at h64
      exact utf8Encode_ne_nil _ hnn hEq.symm)

/-- Claim C7: the parser splits on the first at-sign; the digest part does
not affect tag resolution, and gcr.io/project/image:v1.0 with a digest
parses to host gcr.io, repository project/image, tag v1.0. -/
theorem parse_digest_split :
    parseImageRef "gcr.io/project/image:v1.0@sha256:abcd1234".toList =
      parseImageRef "gcr.io/project/image:v1.0".toList ∧
    parseImageRef "gcr.io/project/image:v1.0@sha256:abcd1234".toList =
      ⟨"gcr.io".toList, "project/image".toList, "v1.0".toList⟩ := by
  decide

/-- Claim C8: lookup on the empty cache fails for every hostname (and
ConvertImageRef then fails for every reference); in general lookup fails
exactly when the normalized hostname is absent from the table, and a
successful lookup returns a name stored in the table for the normalized
hostname. -/
theorem registry_lookup_not_found (cache : RegistryCache) (h v : List Char) :
    GetRegistryName [] h = none ∧
    ConvertImageRef [] h = none ∧
    (GetRegistryName cache h = none ↔ normalizeHostname h ∉ cache.map Prod.fst) ∧
    (GetRegistryName cache h = some v → (normalizeHostname h, v) ∈ cache) := by
  refine ⟨rfl, rfl, lookupKey_eq_none_iff cache (normalizeHostname h),
    fun hsome => lookupKey_some_mem cache (normalizeHostname h) v hsome⟩

/-- Claim C8, witness: the theorem applied to docker.io with a singleton
cache; the implication's hypothesis is discharged by evaluation. -/
theorem registry_lookup_not_found_witness :
    GetRegistryName [] "docker.io".toList = none ∧
    ConvertImageRef [] "docker.io".toList = none ∧
    (GetRegistryName [("docker.io".toList, "Docker Hub".toList)] "docker.io".toList = none ↔
      normalizeHostname "docker.io".toList ∉
        ([("docker.io".toList, "Docker Hub".toList)] : RegistryCache).map Prod.fst) ∧
    (normalizeHostname "docker.io".toList, "Docker Hub".toList) ∈
      ([("docker.io".toList, "Docker Hub".toList)] : RegistryCache) := by
  have hmain := registry_lookup_not_found [("docker.io".toList, "Docker Hub".toList)]
    "docker.io".toList "Docker Hub".toList
  exact ⟨hmain.1, hmain.2.1, hmain.2.2.1, hmain.2.2.2 (by decide)⟩

/-- Claim C9: with an empty secret SignRequest is a no-op: it returns the
request unchanged with a nil error, and neither the timestamp header nor the
signature header is added. -/
theorem signRequest_empty_secret_noop (ts : List Char) (req : HttpRequest)
    (body : List Char) :
    SignRequest [] ts req body = (req, none) ∧
    headerGet (SignRequest [] ts req body).1.header xAquaTimestamp =
      headerGet req.header xAquaTimestamp ∧
    headerGet (SignRequest [] ts req body).1.header xAquaSignature =
      headerGet req.header xAquaSignature := by
  refine ⟨?_, ?_, ?_⟩ <;> simp [SignRequest]

/-- Claim C10, counterexample: the claim fails for inputs containing an
at-sign: a.b@x:y has no slash, has a colon, and the text before its last
colon contains a dot, yet the repository is a.b, not the entire input,
because the digest strip runs first. -/
theorem parse_port_like_repo_cex :
    hasChar "a.b@x:y".toList '/' = false ∧
    hasChar "a.b@x:y".toList ':' = true ∧
    hasChar (("a.b@x:y".toList).take (lastIndex "a.b@x:y".toList ':').toNat) '.' = true ∧
    (parseImageRef "a.b@x:y".toList).repository = "a.b".toList ∧
    (parseImageRef "a.b@x:y".toList).repository ≠ "a.b@x:y".toList := by
  decide

/-- Claim C10, amended: for every reference with no at-sign and no slash
that contains a colon whose preceding text contains a dot, the colon is
treated as a port separator: the tag is latest, the host defaults to
docker.io, and the repository is the entire input including the colon. -/
theorem parse_port_like_repo_amended (ref : List Char)
    (hA : hasChar ref '@' = false)
    (hS : hasChar ref '/' = false)
    (hC : hasChar ref ':' = true)
    (hD : hasChar (ref.take (lastIndex ref ':').toNat) '.' = true) :
    parseImageRef ref = ⟨dockerHubHost, ref, latestTag⟩ := by
  have hsd : stripDigest ref = ref := by simp [stripDigest, hA]
  have hpos : 0 < lastIndex ref ':' := by
    by_contra hnp
    have h0 : (lastIndex ref ':').toNat = 0 := by omega
    rw [h0] at hD
    simp [hasChar] at hD
  have hns : hasChar (ref.take (lastIndex ref ':').toNat) '/' = false :=
    hasChar_take_false ref '/' _ hS
  have hts : tagSplit ref = (ref, latestTag, true) :=
    tagSplit_latest_of_port ref hpos hns hD
  have hfi : firstIndex ref '/' = -1 := firstIndex_of_hasChar_false ref '/' hS
  have hhs : hostSplit ref true = (dockerHubHost, ref) := by
    simp [hostSplit, hfi]
  simp [parseImageRef, hsd, hts, hhs]

/-- Claim C10, witness: the amended theorem applied to app.v2:tag. -/
theorem parse_port_like_repo_amended_witness :
    parseImageRef "app.v2:tag".toList =
      ⟨dockerHubHost, "app.v2:tag".toList, latestTag⟩ :=
  parse_port_like_repo_amended "app.v2:tag".toList
    (by decide) (by decide) (by decide) (by decide)
